import Mathlib

/-!
Shallow embedding of `ixy-tcp-rs` (`src/lib.rs`): the `Phy<D>` bridge between an
ixy pool/driver and the smoltcp device interface.

Modelling conventions:
* A `Packet` is an identity tag plus its current length; payload bytes are not
  modelled (no claim depends on them), only the length of the slice handed to a
  callback.
* `VecDeque<Packet>` becomes `List Packet` with the list head as the deque
  front: `push_back` appends, `pop_front` takes the head, `pop_back` takes the
  last element, `push_front` conses.
* The external driver and pool are modelled as explicit inputs: `rx_batch`
  appends the packets the hardware has ready (a supply list), `alloc_pkt_batch`
  appends freshly allocated packets of length `entry_size` built from a supply
  of ids, and `tx_batch` (the driver's batched transmit, §6 of the design:
  non-blocking, accepts packets from the front of the queue and leaves the rest)
  is driven by a `budget` of free transmit descriptors.
* Fallible code returns `Except NetError`; `smoltcp::Error::Illegal` is the
  error the source raises on the length check.
-/

/-- `Phy::BATCH_SIZE` from the source. -/
def BATCH_SIZE : Nat := 32

/-- An ixy `Packet`: an identity tag (for ownership tracking) and its current
length `len` (`Packet::len`). -/
structure Packet where
  id : Nat
  len : Nat
deriving DecidableEq, Repr

/-- The subset of `smoltcp::Error` values this code produces or propagates:
`Illegal` is returned by the length check in `TxToken::consume`; `exhausted`
stands for an arbitrary error returned by a caller-supplied fill closure. -/
inductive NetError where
  | illegal
  | exhausted
deriving DecidableEq, Repr

/-- The `Phy` bridge state: the pool's fixed `entry_size` plus the three
internal queues (`rx_queue`, `tx_empty`, `tx_queue`) from the source. -/
structure Phy where
  entry_size : Nat
  rx_queue : List Packet
  tx_empty : List Packet
  tx_queue : List Packet
deriving DecidableEq, Repr

namespace Phy

/-- The refill step inside `Phy::rx`: if `rx_queue` is empty, `rx_batch`
appends up to `BATCH_SIZE` packets the driver has ready (`rxS`). -/
def rxFill (rxS : List Packet) (s : Phy) : Phy :=
  if s.rx_queue.isEmpty then
    { s with rx_queue := s.rx_queue ++ rxS.take BATCH_SIZE }
  else s

/-- `Phy::rx`: refill from the driver if empty, then `pop_front`. -/
def rx (rxS : List Packet) (s : Phy) : Option Packet × Phy :=
  let s' := rxFill rxS s
  match s'.rx_queue with
  | [] => (none, s')
  | p :: rest => (some p, { s' with rx_queue := rest })

/-- `Phy::unrx`: `push_front` onto `rx_queue`. -/
def unrx (p : Packet) (s : Phy) : Phy :=
  { s with rx_queue := p :: s.rx_queue }

/-- The refill step inside `Phy::tx`: if `tx_empty` is empty,
`memory::alloc_pkt_batch` appends up to `BATCH_SIZE` freshly allocated packets,
each of length `entry_size` (`max_size` in the source); `txS` supplies the ids
the pool has available. -/
def txFill (txS : List Nat) (s : Phy) : Phy :=
  if s.tx_empty.isEmpty then
    { s with tx_empty :=
        s.tx_empty ++ (txS.take BATCH_SIZE).map fun i => { id := i, len := s.entry_size } }
  else s

/-- `Phy::tx`: refill from the pool if empty, then `pop_back` (the source takes
the back on purpose: best chance to still be in TLB/mmio cache). -/
def tx (txS : List Nat) (s : Phy) : Option Packet × Phy :=
  let s' := txFill txS s
  (s'.tx_empty.getLast?, { s' with tx_empty := s'.tx_empty.dropLast })

/-- `Phy::untx` after its assertion: `push_back` onto `tx_empty`. The source
first checks `assert!(packet.len() == self.pool.entry_size())`; that assertion
is the proposition `p.len = s.entry_size`, treated separately in the theorems. -/
def untx (p : Packet) (s : Phy) : Phy :=
  { s with tx_empty := s.tx_empty ++ [p] }

/-- The external driver's `IxyDevice::tx_batch` on queue 0: it pops packets
from the front of the queue and sends them while a free transmit descriptor
remains (`budget` many), returning the number sent and leaving unaccepted
packets in the queue. -/
def tx_batch : Nat → List Packet → Nat × List Packet
  | _, [] => (0, [])
  | 0, q => (0, q)
  | b + 1, _ :: rest =>
    let (k, q) := tx_batch b rest
    (k + 1, q)

/-- `Phy::flush`: `self.device.tx_batch(0, &mut self.tx_queue)`. -/
def flush (budget : Nat) (s : Phy) : Nat × Phy :=
  let (k, q) := tx_batch budget s.tx_queue
  (k, { s with tx_queue := q })

/-- `<Phy as Sender>::enqueue`: `push_back` the packet onto `tx_queue`, then
flush if the queue has reached `BATCH_SIZE`; always returns `Ok(())`. -/
def enqueue (budget : Nat) (p : Packet) (s : Phy) : Except NetError Unit × Phy :=
  let s' := { s with tx_queue := s.tx_queue ++ [p] }
  let s'' := if BATCH_SIZE ≤ s'.tx_queue.length then (flush budget s').2 else s'
  (Except.ok (), s'')

/-- `<Phy as Device>::receive`: pair one received packet with one free
companion packet; if only one of the two is available, put it back
(`unrx` / `untx`) and return `None`. -/
def receive (rxS : List Packet) (txS : List Nat) (s : Phy) :
    Option (Packet × Packet) × Phy :=
  let (orx, s1) := rx rxS s
  let (otx, s2) := tx txS s1
  match orx, otx with
  | some r, some t => (some (r, t), s2)
  | some r, none => (none, unrx r s2)
  | none, some t => (none, untx t s2)
  | none, none => (none, s2)

/-- `<Phy as Device>::transmit`: hand out one free packet as a Tx token, or
`None`. -/
def transmit (txS : List Nat) (s : Phy) : Option Packet × Phy :=
  match tx txS s with
  | (none, s') => (none, s')
  | (some t, s') => (some t, s')

end Phy

/-- `smoltcp::phy::Checksum` (external interface consumed by the source): which
checksum work the stack itself performs for a protocol. `both` (verify on
receive and compute on send, i.e. the device offers no offload) is the default;
`none` means the stack ignores the checksum entirely. -/
inductive Checksum where
  | both
  | rx
  | tx
  | none
deriving DecidableEq, Repr

/-- `smoltcp::phy::ChecksumCapabilities`: per-protocol flags, all defaulting to
`Checksum::Both` (no offload). -/
structure ChecksumCapabilities where
  ipv4 : Checksum := Checksum.both
  udp : Checksum := Checksum.both
  tcp : Checksum := Checksum.both
  icmpv4 : Checksum := Checksum.both
deriving DecidableEq, Repr

/-- `smoltcp::phy::DeviceCapabilities` (the fields the source touches). -/
structure DeviceCapabilities where
  max_transmission_unit : Nat := 0
  max_burst_size : Option Nat := Option.none
  checksum : ChecksumCapabilities := {}
deriving DecidableEq, Repr

namespace Phy

/-- `<Phy as Device>::capabilities`: start from the default, set
`checksum.udp = Checksum::None`, `max_transmission_unit = pool.entry_size()`,
`max_burst_size = None`. -/
def capabilities (s : Phy) : DeviceCapabilities :=
  { max_transmission_unit := s.entry_size
    max_burst_size := Option.none
    checksum := { udp := Checksum.none } }

end Phy

/-- The capability structure as the spec's words describe it (§4.5): mtu equal
to `entry_size`, burst size unspecified, and every checksum-offload flag
reporting no offload support, i.e. left at the default. Stated only to be
compared against `Phy.capabilities`, which is translated from the source. -/
def specCapabilities (entry_size : Nat) : DeviceCapabilities :=
  { max_transmission_unit := entry_size
    max_burst_size := Option.none
    checksum := {} }

/-- `<TxToken as phy::TxToken>::consume`: reject the request with
`Error::Illegal` when `packet.len() <= length`; otherwise truncate the packet
to `length`, run the caller's fill closure on the resulting mutable slice
(modelled by its length and its outcome `fill`), and on fill success hand the
packet to the bridge via `Sender::enqueue`. The `?` on the fill call propagates
a fill error immediately, dropping the packet. -/
def TxToken.consume (length : Nat) (fill : Nat → Except NetError Unit)
    (budget : Nat) (p : Packet) (s : Phy) : Except NetError Unit × Phy :=
  if p.len ≤ length then (Except.error NetError.illegal, s)
  else
    let p' : Packet := { p with len := min p.len length }
    match fill p'.len with
    | Except.error e => (Except.error e, s)
    | Except.ok r =>
      let (e, s') := Phy.enqueue budget p' s
      (e.map fun _ => r, s')

/-! ### Shared example states and helper lemmas -/

/-- A bridge state with the given `entry_size` and all three queues empty. -/
def emptyPhy (es : Nat) : Phy :=
  { entry_size := es, rx_queue := [], tx_empty := [], tx_queue := [] }

/-- Characterization of the modelled driver transmit: with `b` free descriptors
it accepts `min b |q|` packets and leaves the rest of the queue. -/
theorem Phy.tx_batch_eq (b : Nat) (q : List Packet) :
    Phy.tx_batch b q = (min b q.length, q.drop (min b q.length)) := by
  induction q generalizing b with
  | nil => cases b <;> simp [Phy.tx_batch]
  | cons p rest ih =>
    cases b with
    | zero => simp [Phy.tx_batch]
    | succ b => simp [Phy.tx_batch, ih b, Nat.succ_min_succ]

/-! ### C1 -/

/-- C1: the claim `consume fails iff the requested length exceeds the buffer
capacity, and length = capacity succeeds` is contradicted by the source: the
check `self.packet.len() <= length` also rejects equality, so a transmit
buffer freshly allocated at the pool's entry size (length = capacity = 1500)
with requested length exactly 1500 — which the spec (§4.4, §8) says must
succeed with final buffer length 1500 — is rejected with `Error::Illegal`, the
fill closure never runs, and the buffer never reaches the ready-queue. -/
theorem c1_consume_at_capacity_fails :
    TxToken.consume 1500 (fun _ => Except.ok ()) 0 { id := 0, len := 1500 }
        (emptyPhy 1500) =
      (Except.error NetError.illegal, emptyPhy 1500) ∧
    (TxToken.consume 1500 (fun _ => Except.ok ()) 0 { id := 0, len := 1500 }
        (emptyPhy 1500)).2.tx_queue = [] := by
  exact ⟨rfl, rfl⟩

/-! ### C3 -/

/-- C3 (counterexample): a Tx consume that passes the length validation
(requested 64 < buffer length 1500) but whose fill closure returns an error
does not forward the buffer to the ready-to-transmit queue: the error
propagates through the `?` operator and the bridge state is unchanged, the
ready-queue still empty — contradicting `the buffer reaches the ready-queue
even when the fill function returns an error`. -/
theorem c3_fill_error_drops_buffer :
    TxToken.consume 64 (fun _ => Except.error NetError.exhausted) 0
        { id := 0, len := 1500 } (emptyPhy 1500) =
      (Except.error NetError.exhausted, emptyPhy 1500) ∧
    (TxToken.consume 64 (fun _ => Except.error NetError.exhausted) 0
        { id := 0, len := 1500 } (emptyPhy 1500)).2.tx_queue = [] := by
  exact ⟨rfl, rfl⟩

/-- C3 (amended): when the length validation passes, the buffer (truncated to
the requested length) is forwarded to the ready-queue via the token's enqueue
capability exactly when the fill closure succeeds; a fill error propagates and
the buffer is dropped, leaving the bridge state unchanged. -/
theorem c3_enqueue_iff_fill_ok (length budget : Nat) (p : Packet) (s : Phy)
    (fill : Nat → Except NetError Unit) (h : length < p.len) :
    (fill length = Except.ok () →
      TxToken.consume length fill budget p s =
        (Except.ok (), (Phy.enqueue budget { p with len := length } s).2)) ∧
    (∀ e, fill length = Except.error e →
      TxToken.consume length fill budget p s = (Except.error e, s)) := by
  have hmin : min p.len length = length := Nat.min_eq_right (Nat.le_of_lt h)
  constructor
  · intro hfill
    simp [TxToken.consume, Nat.not_le.mpr h, hmin, hfill, Phy.enqueue, Except.map]
  · intro e hfill
    simp [TxToken.consume, Nat.not_le.mpr h, hmin, hfill]

/-- Witness for C3 (amended) at a concrete input: requested length 64 on a
1500-byte buffer with a succeeding fill closure enqueues the truncated
packet. -/
theorem c3_enqueue_iff_fill_ok_witness :
    TxToken.consume 64 (fun _ => Except.ok ()) 0 { id := 3, len := 1500 }
        (emptyPhy 1500) =
      (Except.ok (), (Phy.enqueue 0 { id := 3, len := 64 } (emptyPhy 1500)).2) :=
  (c3_enqueue_iff_fill_ok 64 0 { id := 3, len := 1500 } (emptyPhy 1500)
    (fun _ => Except.ok ()) (by decide)).1 rfl

/-! ### C4 -/

/-- C4: `Sender::enqueue` pushes the finished packet to the back of the
ready-to-transmit queue and then: whenever the queue has thereby reached
`BATCH_SIZE` (32) or more entries, it immediately flushes the queue to the
driver; whenever the queue is left below `BATCH_SIZE`, no flush occurs and the
state is exactly the buffered push. -/
theorem c4_enqueue_flushes_at_batch_size (budget : Nat) (p : Packet) (s : Phy) :
    (BATCH_SIZE ≤ s.tx_queue.length + 1 →
      Phy.enqueue budget p s =
        (Except.ok (), (Phy.flush budget { s with tx_queue := s.tx_queue ++ [p] }).2)) ∧
    (s.tx_queue.length + 1 < BATCH_SIZE →
      Phy.enqueue budget p s = (Except.ok (), { s with tx_queue := s.tx_queue ++ [p] })) := by
  constructor
  · intro h
    simp [Phy.enqueue, h]
  · intro h
    simp [Phy.enqueue, Nat.not_le.mpr h]

/-- Witness for C4 at concrete inputs: with 31 packets already buffered the
32nd enqueue triggers a flush; with an empty ready-queue the enqueue only
buffers. -/
theorem c4_enqueue_flushes_at_batch_size_witness :
    Phy.enqueue 0 { id := 7, len := 5 }
        { entry_size := 5, rx_queue := [], tx_empty := [],
          tx_queue := List.replicate 31 { id := 0, len := 5 } } =
      (Except.ok (), (Phy.flush 0
        { entry_size := 5, rx_queue := [], tx_empty := [],
          tx_queue := List.replicate 31 { id := 0, len := 5 } ++ [{ id := 7, len := 5 }] }).2) ∧
    Phy.enqueue 0 { id := 7, len := 5 } (emptyPhy 5) =
      (Except.ok (), { emptyPhy 5 with tx_queue := [{ id := 7, len := 5 }] }) := by
  refine ⟨(c4_enqueue_flushes_at_batch_size 0 _ _).1 (by decide),
          (c4_enqueue_flushes_at_batch_size 0 _ _).2 (by decide)⟩

/-! ### C5 -/

/-- C5: `flush` offers the entire ready-queue to the driver's batched transmit
in a single call; with `budget` free descriptors the driver accepts
`min budget |queue|` packets, `flush` returns exactly that count, the accepted
packets leave the front of the queue, and the unaccepted packets remain at the
front in their original relative order — the pre-flush queue is the accepted
prefix followed by the remaining queue. In particular, from `[A, B, C]` with a
driver accepting 1, the queue afterwards is `[B, C]` and flush returns 1. -/
theorem c5_flush_accepts_prefix (budget : Nat) (s : Phy) :
    (Phy.flush budget s).1 = min budget s.tx_queue.length ∧
    (Phy.flush budget s).2 =
      { s with tx_queue := s.tx_queue.drop ((Phy.flush budget s).1) } ∧
    s.tx_queue =
      s.tx_queue.take ((Phy.flush budget s).1) ++ (Phy.flush budget s).2.tx_queue ∧
    Phy.flush 1 { entry_size := 5, rx_queue := [], tx_empty := [],
                  tx_queue := [{ id := 1, len := 5 }, { id := 2, len := 5 },
                               { id := 3, len := 5 }] } =
      (1, { entry_size := 5, rx_queue := [], tx_empty := [],
            tx_queue := [{ id := 2, len := 5 }, { id := 3, len := 5 }] }) := by
  refine ⟨?_, ?_, ?_, by decide⟩ <;>
    simp [Phy.flush, Phy.tx_batch_eq, List.take_append_drop]

/-! ### C7 -/

/-- C7: when the driver and the pool report zero available buffers and the
bridge holds no buffered packets (the `receive finds zero available from both
queues` situation of §4.1/§8), `receive` returns no token pair and `transmit`
returns no token, each leaving the bridge state unchanged; neither signals an
error — zero availability is expressed as `None`, not as a failure. -/
theorem c7_zero_availability_is_not_an_error (s : Phy)
    (hrx : s.rx_queue = []) (htx : s.tx_empty = []) :
    Phy.receive [] [] s = (none, s) ∧ Phy.transmit [] s = (none, s) := by
  obtain ⟨es, rq, te, tq⟩ := s
  simp only [Phy.mk.injEq] at hrx htx
  subst hrx htx
  exact ⟨rfl, rfl⟩

/-- Witness for C7 at a concrete input: the empty bridge with entry size 5. -/
theorem c7_zero_availability_is_not_an_error_witness :
    Phy.receive [] [] (emptyPhy 5) = (none, emptyPhy 5) ∧
    Phy.transmit [] (emptyPhy 5) = (none, emptyPhy 5) :=
  c7_zero_availability_is_not_an_error (emptyPhy 5) rfl rfl

/-! ### C8 -/

/-- C8 (counterexample): the capability structure the source computes is not
the one the claim describes: at entry size 1500 the source's `capabilities`
sets the UDP checksum flag to `Checksum::None` (the stack skips UDP checksums
entirely) instead of leaving it at the no-offload default `Checksum::Both`, so
the computed structure differs from the claimed one. -/
theorem c8_checksum_udp_differs :
    Phy.capabilities (emptyPhy 1500) ≠ specCapabilities 1500 := by decide

/-- C8 (amended): `capabilities` reports `max_transmission_unit` equal to the
pool's fixed `entry_size` and `max_burst_size` unspecified (`None`); every
checksum flag is left at the no-offload default except UDP, which is set to
`Checksum::None` (UDP checksums skipped); and the result depends only on
`entry_size`, never on the runtime-varying queue state. -/
theorem c8_capabilities_from_entry_size (s t : Phy) (h : s.entry_size = t.entry_size) :
    Phy.capabilities s = Phy.capabilities t ∧
    (Phy.capabilities s).max_transmission_unit = s.entry_size ∧
    (Phy.capabilities s).max_burst_size = Option.none ∧
    (Phy.capabilities s).checksum =
      { ipv4 := Checksum.both, udp := Checksum.none,
        tcp := Checksum.both, icmpv4 := Checksum.both } := by
  refine ⟨?_, rfl, rfl, rfl⟩
  simp [Phy.capabilities, h]

/-- Witness for C8 (amended): two concrete states with entry size 7 but
different queue contents report identical capabilities. -/
theorem c8_capabilities_from_entry_size_witness :
    Phy.capabilities (emptyPhy 7) =
      Phy.capabilities { entry_size := 7, rx_queue := [{ id := 1, len := 7 }],
                         tx_empty := [], tx_queue := [{ id := 2, len := 3 }] } :=
  (c8_capabilities_from_entry_size (emptyPhy 7)
    { entry_size := 7, rx_queue := [{ id := 1, len := 7 }],
      tx_empty := [], tx_queue := [{ id := 2, len := 3 }] } rfl).1

/-! ### C6 -/

/-- C6 (counterexample): the free-for-send queue is not a FIFO and does not
hand out its oldest-inserted buffer first: after a refill that inserts the
buffers with ids 1 and then 2 (in that order), `Phy::tx` hands out buffer 2 —
the most recent insertion, not the oldest (the source pops the back of
`tx_empty` on purpose). -/
theorem c6_free_queue_not_fifo :
    (Phy.tx [1, 2] (emptyPhy 5)).1 ≠ some { id := 1, len := 5 } ∧
    (Phy.tx [1, 2] (emptyPhy 5)).1 = some { id := 2, len := 5 } := by
  exact ⟨by decide, rfl⟩

/-- C6 (amended): the rx-queue and the ready-to-transmit queue are FIFOs —
`rx` pops the front (oldest) packet, `enqueue` appends at the back, and
`flush` removes accepted packets from the front — but the free-for-send queue
is a LIFO: `tx` pops the back of `tx_empty`, handing out the most recently
inserted free buffer first. -/
theorem c6_queue_disciplines (s : Phy) (rxS : List Packet) (txS : List Nat)
    (budget : Nat) (q p : Packet) (rest : List Packet)
    (hrx : s.rx_queue = p :: rest) (hte : s.tx_empty ≠ [])
    (hlen : s.tx_queue.length + 1 < BATCH_SIZE) :
    Phy.rx rxS s = (some p, { s with rx_queue := rest }) ∧
    (Phy.tx txS s).1 = s.tx_empty.getLast? ∧
    (Phy.tx txS s).2 = { s with tx_empty := s.tx_empty.dropLast } ∧
    (Phy.enqueue budget q s).2.tx_queue = s.tx_queue ++ [q] ∧
    (Phy.flush budget s).2.tx_queue = s.tx_queue.drop (min budget s.tx_queue.length) := by
  refine ⟨?_, ?_, ?_, ?_, ?_⟩
  · simp [Phy.rx, Phy.rxFill, hrx]
  · simp [Phy.tx, Phy.txFill, hte]
  · simp [Phy.tx, Phy.txFill, hte]
  · simp [Phy.enqueue, Nat.not_le.mpr hlen]
  · simp [Phy.flush, Phy.tx_batch_eq]

/-- A concrete bridge state with all three queues non-empty, used to witness
the queue-discipline theorem. -/
def busyPhy : Phy :=
  { entry_size := 5,
    rx_queue := [{ id := 1, len := 5 }, { id := 2, len := 5 }],
    tx_empty := [{ id := 3, len := 5 }, { id := 4, len := 5 }],
    tx_queue := [{ id := 6, len := 2 }] }

/-- Witness for C6 (amended) at a concrete state with all queues non-empty. -/
theorem c6_queue_disciplines_witness :
    Phy.rx [] busyPhy =
      (some { id := 1, len := 5 }, { busyPhy with rx_queue := [{ id := 2, len := 5 }] }) ∧
    (Phy.tx [] busyPhy).1 = busyPhy.tx_empty.getLast? ∧
    (Phy.tx [] busyPhy).2 = { busyPhy with tx_empty := busyPhy.tx_empty.dropLast } ∧
    (Phy.enqueue 1 { id := 9, len := 5 } busyPhy).2.tx_queue =
      busyPhy.tx_queue ++ [{ id := 9, len := 5 }] ∧
    (Phy.flush 1 busyPhy).2.tx_queue =
      busyPhy.tx_queue.drop (min 1 busyPhy.tx_queue.length) :=
  c6_queue_disciplines busyPhy [] [] 1 { id := 9, len := 5 } { id := 1, len := 5 }
    [{ id := 2, len := 5 }] rfl (by decide) (by decide)

/-! ### Characterization and field lemmas used by C9, C10 and C2 -/

/-- `rxFill` touches only `rx_queue`. -/
theorem Phy.rxFill_tx_empty (rxS : List Packet) (s : Phy) :
    (Phy.rxFill rxS s).tx_empty = s.tx_empty := by
  unfold Phy.rxFill; split <;> rfl

/-- `rxFill` touches only `rx_queue`. -/
theorem Phy.rxFill_tx_queue (rxS : List Packet) (s : Phy) :
    (Phy.rxFill rxS s).tx_queue = s.tx_queue := by
  unfold Phy.rxFill; split <;> rfl

/-- `rxFill` touches only `rx_queue`. -/
theorem Phy.rxFill_entry_size (rxS : List Packet) (s : Phy) :
    (Phy.rxFill rxS s).entry_size = s.entry_size := by
  unfold Phy.rxFill; split <;> rfl

/-- `txFill` touches only `tx_empty`. -/
theorem Phy.txFill_rx_queue (txS : List Nat) (s : Phy) :
    (Phy.txFill txS s).rx_queue = s.rx_queue := by
  unfold Phy.txFill; split <;> rfl

/-- `txFill` touches only `tx_empty`. -/
theorem Phy.txFill_tx_queue (txS : List Nat) (s : Phy) :
    (Phy.txFill txS s).tx_queue = s.tx_queue := by
  unfold Phy.txFill; split <;> rfl

/-- `txFill` touches only `tx_empty`. -/
theorem Phy.txFill_entry_size (txS : List Nat) (s : Phy) :
    (Phy.txFill txS s).entry_size = s.entry_size := by
  unfold Phy.txFill; split <;> rfl

/-- Every packet in the free queue after a refill has length `entry_size`,
provided the packets already there did: the pool allocates at `entry_size`. -/
theorem Phy.txFill_len (txS : List Nat) (s : Phy)
    (hlen : ∀ p ∈ s.tx_empty, p.len = s.entry_size) :
    ∀ p ∈ (Phy.txFill txS s).tx_empty, p.len = s.entry_size := by
  unfold Phy.txFill; split
  · intro p hp
    simp only [List.mem_append, List.mem_map] at hp
    rcases hp with hp | ⟨i, _, rfl⟩
    · exact hlen p hp
    · rfl
  · exact hlen

/-- `transmit` is exactly `tx`, repackaged. -/
theorem Phy.transmit_eq_tx (txS : List Nat) (s : Phy) :
    Phy.transmit txS s = Phy.tx txS s := by
  rcases h : Phy.tx txS s with ⟨o, t⟩
  cases o <;> simp [Phy.transmit, h]

/-- A packet returned by `getLast?` is a member of the list. -/
theorem mem_of_getLast?_eq {α : Type} {l : List α} {a : α}
    (h : l.getLast? = some a) : a ∈ l := by
  have h2 := List.dropLast_append_getLast? a h
  rw [← h2]
  exact List.mem_append_right _ (List.mem_singleton_self a)

/-- Characterization of `receive`: compute the state with both refills applied
first; a token pair is handed out exactly when the refilled rx-queue and the
refilled free queue are both non-empty (front of the rx-queue paired with back
of the free queue), and in every other case the result is `none` with the
state exactly the refilled state (the taken packet, if any, put back by
`unrx` / `untx`). -/
theorem Phy.receive_eq (rxS : List Packet) (txS : List Nat) (s : Phy) :
    Phy.receive rxS txS s =
      match (Phy.txFill txS (Phy.rxFill rxS s)).rx_queue,
            (Phy.txFill txS (Phy.rxFill rxS s)).tx_empty.getLast? with
      | p :: rest, some t =>
        (some (p, t),
          { Phy.txFill txS (Phy.rxFill rxS s) with
              rx_queue := rest,
              tx_empty := (Phy.txFill txS (Phy.rxFill rxS s)).tx_empty.dropLast })
      | _, _ => (none, Phy.txFill txS (Phy.rxFill rxS s)) := by
  obtain ⟨es, rq, te, tq⟩ := s
  cases rq with
  | cons a as =>
    cases te with
    | cons b bs =>
      rcases hE : (b :: bs).getLast? with _ | t
      · simp [List.getLast?_eq_none_iff] at hE
      · simp [Phy.receive, Phy.rx, Phy.tx, Phy.rxFill, Phy.txFill, hE,
              List.dropLast_append_getLast? t hE]
    | nil =>
      rcases hE : ((txS.map fun i => ({ id := i, len := es } : Packet)).take
          BATCH_SIZE).getLast? with _ | t
      · have h0 : (txS.map fun i => ({ id := i, len := es } : Packet)).take
            BATCH_SIZE = [] := by rwa [List.getLast?_eq_none_iff] at hE
        simp [Phy.receive, Phy.rx, Phy.tx, Phy.rxFill, Phy.txFill, Phy.unrx, h0]
      · simp [Phy.receive, Phy.rx, Phy.tx, Phy.rxFill, Phy.txFill, hE,
              List.dropLast_append_getLast? t hE]
  | nil =>
    rcases hR : rxS.take BATCH_SIZE with _ | ⟨p, ps⟩
    · cases te with
      | cons b bs =>
        rcases hE : (b :: bs).getLast? with _ | t
        · simp [List.getLast?_eq_none_iff] at hE
        · simp [Phy.receive, Phy.rx, Phy.tx, Phy.rxFill, Phy.txFill, Phy.untx, hR, hE,
                List.dropLast_append_getLast? t hE]
      | nil =>
        rcases hE : ((txS.map fun i => ({ id := i, len := es } : Packet)).take
            BATCH_SIZE).getLast? with _ | t
        · have h0 : (txS.map fun i => ({ id := i, len := es } : Packet)).take
              BATCH_SIZE = [] := by rwa [List.getLast?_eq_none_iff] at hE
          simp [Phy.receive, Phy.rx, Phy.tx, Phy.rxFill, Phy.txFill, hR, h0]
        · simp [Phy.receive, Phy.rx, Phy.tx, Phy.rxFill, Phy.txFill, Phy.untx, hR, hE,
                List.dropLast_append_getLast? t hE]
    · cases te with
      | cons b bs =>
        rcases hE : (b :: bs).getLast? with _ | t
        · simp [List.getLast?_eq_none_iff] at hE
        · simp [Phy.receive, Phy.rx, Phy.tx, Phy.rxFill, Phy.txFill, hR, hE,
                List.dropLast_append_getLast? t hE]
      | nil =>
        rcases hE : ((txS.map fun i => ({ id := i, len := es } : Packet)).take
            BATCH_SIZE).getLast? with _ | t
        · have h0 : (txS.map fun i => ({ id := i, len := es } : Packet)).take
              BATCH_SIZE = [] := by rwa [List.getLast?_eq_none_iff] at hE
          simp [Phy.receive, Phy.rx, Phy.tx, Phy.rxFill, Phy.txFill, Phy.unrx, hR, h0]
        · simp [Phy.receive, Phy.rx, Phy.tx, Phy.rxFill, Phy.txFill, hR, hE,
                List.dropLast_append_getLast? t hE]

/-- Every packet in the refilled free queue has length `entry_size`. -/
theorem Phy.fills_tx_empty_len (rxS : List Packet) (txS : List Nat) (s : Phy)
    (hlen : ∀ p ∈ s.tx_empty, p.len = s.entry_size) :
    ∀ p ∈ (Phy.txFill txS (Phy.rxFill rxS s)).tx_empty, p.len = s.entry_size := by
  have h1 := Phy.rxFill_tx_empty rxS s
  have h2 := Phy.rxFill_entry_size rxS s
  have h3 := Phy.txFill_len txS (Phy.rxFill rxS s) (by rw [h1, h2]; exact hlen)
  rwa [h2] at h3

/-- The free queue's length invariant survives a `receive` call. -/
theorem Phy.receive_tx_empty_len (rxS : List Packet) (txS : List Nat) (s : Phy)
    (hlen : ∀ p ∈ s.tx_empty, p.len = s.entry_size) :
    ∀ p ∈ (Phy.receive rxS txS s).2.tx_empty, p.len = s.entry_size := by
  have hF := Phy.fills_tx_empty_len rxS txS s hlen
  rw [Phy.receive_eq]
  rcases hR : (Phy.txFill txS (Phy.rxFill rxS s)).rx_queue with _ | ⟨p, rest⟩ <;>
    rcases hE : (Phy.txFill txS (Phy.rxFill rxS s)).tx_empty.getLast? with _ | t <;>
    simp only []
  · exact hF
  · exact hF
  · exact hF
  · exact fun q hq => hF q ((List.dropLast_sublist _).subset hq)

/-! ### C9 -/

/-- C9 (counterexample): `receive` on an empty bridge with one packet
available from the driver and none from the pool returns no pair — but the
rx-queue afterwards holds the packet fetched from the driver during the call,
so the queues are not `exactly as before the call`. -/
theorem c9_refill_changes_queues :
    (Phy.receive [{ id := 1, len := 5 }] [] (emptyPhy 5)).1 = none ∧
    (Phy.receive [{ id := 1, len := 5 }] [] (emptyPhy 5)).2 ≠ emptyPhy 5 := by
  exact ⟨rfl, by decide⟩

/-- C9 (amended): `receive` yields a token pair exactly when, after the refill
steps from the driver and the pool, both the rx-queue and the free queue are
non-empty; in every other case it returns `none` and restores any packet it
had taken (a taken rx packet back to the front of the rx-queue, a taken free
packet back to the back of the free queue), so the three queues are exactly
the refilled ones — no packet is lost or reordered (and they equal the
pre-call queues whenever no refill occurred). The hypothesis is the free-queue
length invariant under which `untx`'s assertion always passes; it is preserved
by the call. -/
theorem c9_receive_pair_or_restore (s : Phy) (rxS : List Packet) (txS : List Nat)
    (hlen : ∀ p ∈ s.tx_empty, p.len = s.entry_size) :
    ((Phy.receive rxS txS s).1 = none ↔
      (Phy.txFill txS (Phy.rxFill rxS s)).rx_queue = [] ∨
      (Phy.txFill txS (Phy.rxFill rxS s)).tx_empty = []) ∧
    ((Phy.receive rxS txS s).1 = none →
      (Phy.receive rxS txS s).2 = Phy.txFill txS (Phy.rxFill rxS s)) ∧
    (∀ p ∈ (Phy.receive rxS txS s).2.tx_empty, p.len = s.entry_size) := by
  refine ⟨?_, ?_, Phy.receive_tx_empty_len rxS txS s hlen⟩ <;>
    rw [Phy.receive_eq] <;>
    rcases hR : (Phy.txFill txS (Phy.rxFill rxS s)).rx_queue with _ | ⟨p, rest⟩ <;>
    rcases hE : (Phy.txFill txS (Phy.rxFill rxS s)).tx_empty.getLast? with _ | t <;>
    simp only []
  · simp
  · simp
  · simp [List.getLast?_eq_none_iff.mp hE]
  · have h1 : (Phy.txFill txS (Phy.rxFill rxS s)).tx_empty ≠ [] := by
      intro h0
      rw [h0] at hE
      exact Option.noConfusion hE
    simp [h1]
  · simp
  · simp
  · simp
  · simp

/-- Witness for C9 (amended) at a concrete input: an empty bridge, one driver
packet, no pool buffers; `receive` returns `none` and the state is exactly the
refilled one. -/
theorem c9_receive_pair_or_restore_witness :
    (Phy.receive [{ id := 1, len := 5 }] [] (emptyPhy 5)).2 =
      Phy.txFill [] (Phy.rxFill [{ id := 1, len := 5 }] (emptyPhy 5)) :=
  (c9_receive_pair_or_restore (emptyPhy 5) [{ id := 1, len := 5 }] []
    (by decide)).2.1 rfl

/-! ### C10 -/

/-- C10: if every packet in the free-for-send queue has length exactly
`entry_size`, then any packet `Phy::tx` hands out has length exactly
`entry_size` — so the assertion `assert!(packet.len() == self.pool.entry_size())`
in `Phy::untx` can never fail for packets obtained from `tx` (which allocates
them at `entry_size`) — and the invariant is preserved by `tx`, `receive` and
`transmit`. -/
theorem c10_free_queue_length_invariant (s : Phy) (rxS : List Packet) (txS : List Nat)
    (hlen : ∀ p ∈ s.tx_empty, p.len = s.entry_size) :
    (∀ p, (Phy.tx txS s).1 = some p → p.len = s.entry_size) ∧
    (∀ p ∈ (Phy.tx txS s).2.tx_empty, p.len = s.entry_size) ∧
    (∀ p ∈ (Phy.receive rxS txS s).2.tx_empty, p.len = s.entry_size) ∧
    (∀ p ∈ (Phy.transmit txS s).2.tx_empty, p.len = s.entry_size) := by
  have hF := Phy.txFill_len txS s hlen
  refine ⟨?_, ?_, Phy.receive_tx_empty_len rxS txS s hlen, ?_⟩
  · intro p hp
    exact hF p (mem_of_getLast?_eq hp)
  · intro p hp
    exact hF p ((List.dropLast_sublist _).subset hp)
  · rw [Phy.transmit_eq_tx]
    intro p hp
    exact hF p ((List.dropLast_sublist _).subset hp)

/-- Witness for C10 at a concrete state: in `busyPhy` the free queue holds
packets of length 5 = `entry_size`; `tx` hands out the packet with id 4 and
its length satisfies the `untx` assertion. -/
theorem c10_free_queue_length_invariant_witness :
    (Phy.tx [] busyPhy).1 = some { id := 4, len := 5 } ∧
    ({ id := 4, len := 5 } : Packet).len = busyPhy.entry_size :=
  ⟨rfl, (c10_free_queue_length_invariant busyPhy [] [] (by decide)).1
    { id := 4, len := 5 } rfl⟩

/-! ### C2: ownership tracking across operation traces -/

/-- The identity tags of a packet list. -/
def tagsOf (l : List Packet) : List Nat := l.map Packet.id

/-- The whole bridge system for ownership tracking: the `Phy` state together
with the packets currently wrapped in live `RxToken`s and `TxToken`s held by
the stack. -/
structure Sys where
  phy : Phy
  rxTok : List Packet
  txTok : List Packet
deriving DecidableEq, Repr

/-- Every tag present in the system: the three bridge queues and the live
tokens. -/
def Sys.allTags (s : Sys) : List Nat :=
  tagsOf s.phy.rx_queue ++ tagsOf s.phy.tx_empty ++ tagsOf s.phy.tx_queue ++
    tagsOf s.rxTok ++ tagsOf s.txTok

/-- One operation of the bridge's public interface. The environment's choices
are the operation's data: the driver's rx supply, the pool's free-buffer ids,
the driver's descriptor budget, the index of the token being consumed, and
the fill closure's outcome. -/
inductive Op where
  | receive (rxS : List Packet) (txS : List Nat)
  | transmit (txS : List Nat)
  | flush (budget : Nat)
  | consumeRx (i : Nat)
  | consumeTx (i : Nat) (length : Nat) (fillOk : Bool) (budget : Nat)
deriving DecidableEq, Repr

/-- The tags an operation's environment may inject into the system. -/
def Op.supplyTags : Op → List Nat
  | .receive rxS txS => tagsOf rxS ++ txS
  | .transmit txS => txS
  | _ => []

/-- One step of the system: `receive`/`transmit` wrap handed-out packets in
live tokens; consuming an `RxToken` drops its packet (back to the pool, out of
the bridge); consuming a `TxToken` runs `TxToken::consume`, which enqueues the
packet on success and drops it on a length-check or fill failure. -/
def step (op : Op) (s : Sys) : Sys :=
  match op with
  | .receive rxS txS =>
    match Phy.receive rxS txS s.phy with
    | (some (r, t), phy') =>
      { phy := phy', rxTok := r :: s.rxTok, txTok := t :: s.txTok }
    | (none, phy') => { s with phy := phy' }
  | .transmit txS =>
    match Phy.transmit txS s.phy with
    | (some t, phy') => { s with phy := phy', txTok := t :: s.txTok }
    | (none, phy') => { s with phy := phy' }
  | .flush budget => { s with phy := (Phy.flush budget s.phy).2 }
  | .consumeRx i => { s with rxTok := s.rxTok.eraseIdx i }
  | .consumeTx i length fillOk budget =>
    match s.txTok[i]? with
    | none => s
    | some p =>
      { phy := (TxToken.consume length
          (fun _ => if fillOk then Except.ok () else Except.error NetError.exhausted)
          budget p s.phy).2,
        rxTok := s.rxTok,
        txTok := s.txTok.eraseIdx i }

/-- Run a sequence of operations. -/
def run : List Op → Sys → Sys
  | [], s => s
  | op :: ops, s => run ops (step op s)

/-- Freshness of a trace: at each step, the tags the environment supplies are
distinct from each other and from every tag currently in the system
(instrumented buffers carry globally unique identities). -/
def freshTrace : List Op → Sys → Bool
  | [], _ => true
  | op :: ops, s =>
    decide (op.supplyTags ++ s.allTags).Nodup && freshTrace ops (step op s)

/-- The multiset of tags in the three bridge queues. -/
def Phy.tagsM (s : Phy) : Multiset Nat :=
  ↑(tagsOf s.rx_queue) + ↑(tagsOf s.tx_empty) + ↑(tagsOf s.tx_queue)

/-- The multiset of tags in the whole system. -/
def Sys.tagsM (s : Sys) : Multiset Nat :=
  s.phy.tagsM + ↑(tagsOf s.rxTok) + ↑(tagsOf s.txTok)

/-- The tag list and the tag multiset agree. -/
theorem Sys.coe_allTags (s : Sys) : (↑s.allTags : Multiset Nat) = s.tagsM := by
  simp [Sys.allTags, Sys.tagsM, Phy.tagsM]

/-- Removing the element at index `i` and putting it back in front is a
permutation of the original list. -/
theorem perm_cons_eraseIdx {α : Type} :
    ∀ (l : List α) (i : Nat) (p : α), l[i]? = some p →
      List.Perm l (p :: l.eraseIdx i) := by
  intro l
  induction l with
  | nil => intro i p h; simp at h
  | cons x xs ih =>
    intro i p h
    cases i with
    | zero =>
      simp at h
      subst h
      simp [List.eraseIdx]
    | succ j =>
      simp only [List.getElem?_cons_succ] at h
      have h2 := ih j p h
      exact (h2.cons x).trans (List.Perm.swap p x _)

/-- Refilling the rx-queue only adds driver-supplied tags. -/
theorem Phy.rxFill_tagsM_le (rxS : List Packet) (s : Phy) :
    (Phy.rxFill rxS s).tagsM ≤ ↑(tagsOf rxS) + s.tagsM := by
  have hT : (↑(tagsOf (rxS.take BATCH_SIZE)) : Multiset Nat) ≤ ↑(tagsOf rxS) := by
    rw [Multiset.coe_le]
    exact ((List.take_sublist _ _).map Packet.id).subperm
  unfold Phy.rxFill
  split
  · simp only [Phy.tagsM, tagsOf, List.map_append, Multiset.coe_add]
    calc (↑(List.map Packet.id s.rx_queue) + ↑(List.map Packet.id (rxS.take BATCH_SIZE))
            : Multiset Nat) + ↑(tagsOf s.tx_empty) + ↑(tagsOf s.tx_queue)
        = ↑(List.map Packet.id (rxS.take BATCH_SIZE)) +
            (↑(List.map Packet.id s.rx_queue) + ↑(tagsOf s.tx_empty) +
              ↑(tagsOf s.tx_queue)) := by abel
      _ ≤ ↑(List.map Packet.id rxS) +
            (↑(List.map Packet.id s.rx_queue) + ↑(tagsOf s.tx_empty) +
              ↑(tagsOf s.tx_queue)) := add_le_add_right hT _
  · exact le_add_self

/-- Refilling the free queue only adds pool-supplied tags (the allocated
packets carry exactly the supplied ids). -/
theorem Phy.txFill_tagsM_le (txS : List Nat) (s : Phy) :
    (Phy.txFill txS s).tagsM ≤ ↑txS + s.tagsM := by
  have hmap : tagsOf ((txS.take BATCH_SIZE).map
      fun i => ({ id := i, len := s.entry_size } : Packet)) = txS.take BATCH_SIZE := by
    simp only [tagsOf, List.map_map]
    rw [show (Packet.id ∘ fun i => ({ id := i, len := s.entry_size } : Packet)) = id
      from rfl, List.map_id]
  have hT : (↑(txS.take BATCH_SIZE) : Multiset Nat) ≤ ↑txS := by
    rw [Multiset.coe_le]
    exact (List.take_sublist _ _).subperm
  unfold Phy.txFill
  split
  · simp only [Phy.tagsM, tagsOf, List.map_append]
    rw [show List.map Packet.id ((txS.take BATCH_SIZE).map
        fun i => ({ id := i, len := s.entry_size } : Packet)) = txS.take BATCH_SIZE from hmap]
    simp only [Multiset.coe_add]
    calc (↑(tagsOf s.rx_queue) : Multiset Nat) +
            (↑(List.map Packet.id s.tx_empty) + ↑(txS.take BATCH_SIZE)) +
            ↑(List.map Packet.id s.tx_queue)
        = ↑(txS.take BATCH_SIZE) +
            (↑(tagsOf s.rx_queue) + ↑(List.map Packet.id s.tx_empty) +
              ↑(List.map Packet.id s.tx_queue)) := by abel
      _ ≤ ↑txS + (↑(tagsOf s.rx_queue) + ↑(List.map Packet.id s.tx_empty) +
              ↑(List.map Packet.id s.tx_queue)) := add_le_add_right hT _
  · exact le_add_self

/-- The combined refill adds only supplied tags. -/
theorem Phy.fills_tagsM_le (rxS : List Packet) (txS : List Nat) (s : Phy) :
    (Phy.txFill txS (Phy.rxFill rxS s)).tagsM ≤ ↑(tagsOf rxS) + ↑txS + s.tagsM :=
  calc (Phy.txFill txS (Phy.rxFill rxS s)).tagsM
      ≤ ↑txS + (Phy.rxFill rxS s).tagsM := Phy.txFill_tagsM_le txS _
    _ ≤ ↑txS + (↑(tagsOf rxS) + s.tagsM) :=
        add_le_add_left (Phy.rxFill_tagsM_le rxS s) _
    _ = ↑(tagsOf rxS) + ↑txS + s.tagsM := by abel

/-- The driver's batched transmit only removes tags from the ready-queue. -/
theorem Phy.flush_tagsM_le (budget : Nat) (s : Phy) :
    (Phy.flush budget s).2.tagsM ≤ s.tagsM := by
  have hT : (↑(tagsOf (s.tx_queue.drop (min budget s.tx_queue.length))) : Multiset Nat)
      ≤ ↑(tagsOf s.tx_queue) := by
    rw [Multiset.coe_le]
    exact ((List.drop_sublist _ _).map Packet.id).subperm
  simp only [Phy.flush, Phy.tx_batch_eq, Phy.tagsM]
  exact add_le_add (add_le_add_left le_rfl _) hT

/-- `Sender::enqueue` adds exactly the enqueued packet's tag (and possibly
removes tags by flushing). -/
theorem Phy.enqueue_tagsM_le (budget : Nat) (p : Packet) (s : Phy) :
    (Phy.enqueue budget p s).2.tagsM ≤ {p.id} + s.tagsM := by
  have hpush : Phy.tagsM { s with tx_queue := s.tx_queue ++ [p] } = {p.id} + s.tagsM := by
    simp only [Phy.tagsM, tagsOf, List.map_append]
    show (↑(List.map Packet.id s.rx_queue) : Multiset Nat) +
        ↑(List.map Packet.id s.tx_empty) +
        (↑(List.map Packet.id s.tx_queue) + {p.id}) =
      {p.id} + (↑(List.map Packet.id s.rx_queue) + ↑(List.map Packet.id s.tx_empty) +
        ↑(List.map Packet.id s.tx_queue))
    abel
  simp only [Phy.enqueue]
  split
  · exact le_trans (Phy.flush_tagsM_le budget _) (le_of_eq hpush)
  · exact le_of_eq hpush

/-- `TxToken::consume` never introduces a tag other than the consumed packet's
own, and may only drop tags. -/
theorem TxToken.consume_tagsM_le (length : Nat) (fill : Nat → Except NetError Unit)
    (budget : Nat) (p : Packet) (s : Phy) :
    (TxToken.consume length fill budget p s).2.tagsM ≤ {p.id} + s.tagsM := by
  unfold TxToken.consume
  split
  · exact le_add_self
  · show ((match fill (min p.len length) with
        | Except.error e => (Except.error e, s)
        | Except.ok r =>
          match Phy.enqueue budget { id := p.id, len := min p.len length } s with
          | (e, s') => (Except.map (fun _ => r) e, s')) :
        Except NetError Unit × Phy).2.tagsM ≤ {p.id} + s.tagsM
    split
    · exact le_add_self
    · have h := Phy.enqueue_tagsM_le budget { p with len := min p.len length } s
      rcases he : Phy.enqueue budget { p with len := min p.len length } s with ⟨e, s'⟩
      rw [he] at h
      simpa using h

/-- Erasing an index only removes tags. -/
theorem tagsOf_eraseIdx_le (l : List Packet) (i : Nat) :
    (↑(tagsOf (l.eraseIdx i)) : Multiset Nat) ≤ ↑(tagsOf l) := by
  rw [Multiset.coe_le]
  exact ((List.eraseIdx_sublist l i).map Packet.id).subperm

/-- Erasing a present index splits off exactly its tag. -/
theorem tagsOf_eraseIdx_eq {l : List Packet} {i : Nat} {p : Packet}
    (h : l[i]? = some p) :
    (↑(tagsOf l) : Multiset Nat) = {p.id} + ↑(tagsOf (l.eraseIdx i)) := by
  have hp := (perm_cons_eraseIdx l i p h).map Packet.id
  show (↑(List.map Packet.id l) : Multiset Nat) = {p.id} + ↑(List.map Packet.id (l.eraseIdx i))
  rw [Multiset.coe_eq_coe.mpr hp]
  rfl

/-- Tags of the sublist remaining after `dropLast` are contained in the tags
of the list. -/
theorem tagsOf_dropLast_le (l : List Packet) :
    (↑(tagsOf l.dropLast) : Multiset Nat) ≤ ↑(tagsOf l) := by
  rw [Multiset.coe_le]
  exact ((List.dropLast_sublist _).map Packet.id).subperm

/-- Splitting the back element off the tag multiset. -/
theorem tagsOf_dropLast_eq {l : List Packet} {t : Packet}
    (h : l.getLast? = some t) :
    (↑(tagsOf l.dropLast) : Multiset Nat) + {t.id} = ↑(tagsOf l) := by
  have h2 : tagsOf (l.dropLast ++ [t]) = tagsOf l.dropLast ++ [t.id] := by
    simp [tagsOf]
  conv_rhs => rw [← List.dropLast_append_getLast? t h]
  rw [h2]
  rfl

/-- One bridge operation never duplicates a tag: the tags after a step are
contained in the environment's supply plus the tags before the step. -/
theorem step_tagsM_le (op : Op) (s : Sys) :
    (step op s).tagsM ≤ ↑op.supplyTags + s.tagsM := by
  cases op with
  | receive rxS txS =>
    have hfills := Phy.fills_tagsM_le rxS txS s.phy
    simp only [step, Op.supplyTags]
    rw [Phy.receive_eq]
    rcases hR : (Phy.txFill txS (Phy.rxFill rxS s.phy)).rx_queue with _ | ⟨r, rest⟩ <;>
      rcases hE : (Phy.txFill txS (Phy.rxFill rxS s.phy)).tx_empty.getLast? with _ | t <;>
      simp only []
    · calc Sys.tagsM { s with phy := Phy.txFill txS (Phy.rxFill rxS s.phy) }
          ≤ (↑(tagsOf rxS) + ↑txS + s.phy.tagsM) + ↑(tagsOf s.rxTok) +
              ↑(tagsOf s.txTok) := add_le_add_right (add_le_add_right hfills _) _
        _ = ↑(tagsOf rxS ++ txS) + s.tagsM := by
            show _ = (↑(tagsOf rxS) + ↑txS) +
              (s.phy.tagsM + ↑(tagsOf s.rxTok) + ↑(tagsOf s.txTok))
            abel
    · calc Sys.tagsM { s with phy := Phy.txFill txS (Phy.rxFill rxS s.phy) }
          ≤ (↑(tagsOf rxS) + ↑txS + s.phy.tagsM) + ↑(tagsOf s.rxTok) +
              ↑(tagsOf s.txTok) := add_le_add_right (add_le_add_right hfills _) _
        _ = ↑(tagsOf rxS ++ txS) + s.tagsM := by
            show _ = (↑(tagsOf rxS) + ↑txS) +
              (s.phy.tagsM + ↑(tagsOf s.rxTok) + ↑(tagsOf s.txTok))
            abel
    · calc Sys.tagsM { s with phy := Phy.txFill txS (Phy.rxFill rxS s.phy) }
          ≤ (↑(tagsOf rxS) + ↑txS + s.phy.tagsM) + ↑(tagsOf s.rxTok) +
              ↑(tagsOf s.txTok) := add_le_add_right (add_le_add_right hfills _) _
        _ = ↑(tagsOf rxS ++ txS) + s.tagsM := by
            show _ = (↑(tagsOf rxS) + ↑txS) +
              (s.phy.tagsM + ↑(tagsOf s.rxTok) + ↑(tagsOf s.txTok))
            abel
    · have hRQ : (↑(tagsOf (Phy.txFill txS (Phy.rxFill rxS s.phy)).rx_queue) :
          Multiset Nat) = {r.id} + ↑(tagsOf rest) := by
        rw [hR]; rfl
      have hDE := tagsOf_dropLast_eq hE
      calc Sys.tagsM
            { phy := { Phy.txFill txS (Phy.rxFill rxS s.phy) with
                rx_queue := rest,
                tx_empty := (Phy.txFill txS (Phy.rxFill rxS s.phy)).tx_empty.dropLast },
              rxTok := r :: s.rxTok, txTok := t :: s.txTok }
          = ↑(tagsOf (Phy.txFill txS (Phy.rxFill rxS s.phy)).rx_queue) +
              ↑(tagsOf (Phy.txFill txS (Phy.rxFill rxS s.phy)).tx_empty) +
              ↑(tagsOf (Phy.txFill txS (Phy.rxFill rxS s.phy)).tx_queue) +
              ↑(tagsOf s.rxTok) + ↑(tagsOf s.txTok) := by
            rw [hRQ, ← hDE]
            show ((↑(tagsOf rest) +
                ↑(tagsOf ((Phy.txFill txS (Phy.rxFill rxS s.phy)).tx_empty.dropLast)) +
                ↑(tagsOf (Phy.txFill txS (Phy.rxFill rxS s.phy)).tx_queue)) +
                ({r.id} + ↑(tagsOf s.rxTok)) + ({t.id} + ↑(tagsOf s.txTok)) :
                Multiset Nat) = _
            abel
        _ ≤ (↑(tagsOf rxS) + ↑txS + s.phy.tagsM) + ↑(tagsOf s.rxTok) +
              ↑(tagsOf s.txTok) := add_le_add_right (add_le_add_right hfills _) _
        _ = ↑(tagsOf rxS ++ txS) + s.tagsM := by
            show _ = (↑(tagsOf rxS) + ↑txS) +
              (s.phy.tagsM + ↑(tagsOf s.rxTok) + ↑(tagsOf s.txTok))
            abel
  | transmit txS =>
    have hfill := Phy.txFill_tagsM_le txS s.phy
    have htx : Phy.transmit txS s.phy =
        ((Phy.txFill txS s.phy).tx_empty.getLast?,
          { Phy.txFill txS s.phy with
              tx_empty := (Phy.txFill txS s.phy).tx_empty.dropLast }) := by
      rw [Phy.transmit_eq_tx]
      rfl
    simp only [step, Op.supplyTags]
    rw [htx]
    rcases hE : (Phy.txFill txS s.phy).tx_empty.getLast? with _ | t <;> simp only []
    · have hdrop := tagsOf_dropLast_le (Phy.txFill txS s.phy).tx_empty
      calc Sys.tagsM { s with phy := { Phy.txFill txS s.phy with
              tx_empty := (Phy.txFill txS s.phy).tx_empty.dropLast } }
          ≤ (Phy.txFill txS s.phy).tagsM + ↑(tagsOf s.rxTok) + ↑(tagsOf s.txTok) :=
            add_le_add_right (add_le_add_right
              (add_le_add_right (add_le_add_left hdrop _) _) _) _
        _ ≤ (↑txS + s.phy.tagsM) + ↑(tagsOf s.rxTok) + ↑(tagsOf s.txTok) :=
            add_le_add_right (add_le_add_right hfill _) _
        _ = ↑txS + s.tagsM := by
            show _ = ↑txS +
              (s.phy.tagsM + ↑(tagsOf s.rxTok) + ↑(tagsOf s.txTok))
            abel
    · have hDE := tagsOf_dropLast_eq hE
      calc Sys.tagsM { s with
              phy := { Phy.txFill txS s.phy with
                tx_empty := (Phy.txFill txS s.phy).tx_empty.dropLast },
              txTok := t :: s.txTok }
          = (Phy.txFill txS s.phy).tagsM + ↑(tagsOf s.rxTok) + ↑(tagsOf s.txTok) := by
            rw [show (Phy.txFill txS s.phy).tagsM =
                ↑(tagsOf (Phy.txFill txS s.phy).rx_queue) +
                ↑(tagsOf (Phy.txFill txS s.phy).tx_empty) +
                ↑(tagsOf (Phy.txFill txS s.phy).tx_queue) from rfl, ← hDE]
            show ((↑(tagsOf (Phy.txFill txS s.phy).rx_queue) +
                ↑(tagsOf ((Phy.txFill txS s.phy).tx_empty.dropLast)) +
                ↑(tagsOf (Phy.txFill txS s.phy).tx_queue)) +
                ↑(tagsOf s.rxTok) + ({t.id} + ↑(tagsOf s.txTok)) :
                Multiset Nat) = _
            abel
        _ ≤ (↑txS + s.phy.tagsM) + ↑(tagsOf s.rxTok) + ↑(tagsOf s.txTok) :=
            add_le_add_right (add_le_add_right hfill _) _
        _ = ↑txS + s.tagsM := by
            show _ = ↑txS +
              (s.phy.tagsM + ↑(tagsOf s.rxTok) + ↑(tagsOf s.txTok))
            abel
  | flush budget =>
    simp only [step, Op.supplyTags]
    calc Sys.tagsM { s with phy := (Phy.flush budget s.phy).2 }
        ≤ s.phy.tagsM + ↑(tagsOf s.rxTok) + ↑(tagsOf s.txTok) :=
          add_le_add_right (add_le_add_right (Phy.flush_tagsM_le budget s.phy) _) _
      _ = ↑([] : List Nat) + s.tagsM := by
          show _ = 0 + (s.phy.tagsM + ↑(tagsOf s.rxTok) + ↑(tagsOf s.txTok))
          rw [zero_add]
  | consumeRx i =>
    simp only [step, Op.supplyTags]
    calc Sys.tagsM { s with rxTok := s.rxTok.eraseIdx i }
        ≤ s.phy.tagsM + ↑(tagsOf s.rxTok) + ↑(tagsOf s.txTok) :=
          add_le_add_right (add_le_add_left (tagsOf_eraseIdx_le s.rxTok i) _) _
      _ = ↑([] : List Nat) + s.tagsM := by
          show _ = 0 + (s.phy.tagsM + ↑(tagsOf s.rxTok) + ↑(tagsOf s.txTok))
          rw [zero_add]
  | consumeTx i length fillOk budget =>
    simp only [step, Op.supplyTags]
    rcases hi : s.txTok[i]? with _ | p <;> simp only []
    · exact le_of_eq (zero_add _).symm
    · have hcons := TxToken.consume_tagsM_le length
        (fun _ => if fillOk then Except.ok () else Except.error NetError.exhausted)
        budget p s.phy
      show (TxToken.consume length
          (fun _ => if fillOk then Except.ok () else Except.error NetError.exhausted)
          budget p s.phy).2.tagsM + ↑(tagsOf s.rxTok) +
          ↑(tagsOf (s.txTok.eraseIdx i)) ≤ ↑([] : List Nat) + s.tagsM
      calc (TxToken.consume length
              (fun _ => if fillOk then Except.ok () else Except.error NetError.exhausted)
              budget p s.phy).2.tagsM + ↑(tagsOf s.rxTok) +
            ↑(tagsOf (s.txTok.eraseIdx i))
          ≤ ({p.id} + s.phy.tagsM) + ↑(tagsOf s.rxTok) +
              ↑(tagsOf (s.txTok.eraseIdx i)) :=
            add_le_add_right (add_le_add_right hcons _) _
        _ = s.phy.tagsM + ↑(tagsOf s.rxTok) +
              ({p.id} + ↑(tagsOf (s.txTok.eraseIdx i))) := by abel
        _ = s.phy.tagsM + ↑(tagsOf s.rxTok) + ↑(tagsOf s.txTok) := by
            rw [← tagsOf_eraseIdx_eq hi]
        _ = ↑([] : List Nat) + s.tagsM := by
            rw [show (↑([] : List Nat) : Multiset Nat) = 0 from rfl, zero_add]
            rfl

/-- A fresh step preserves tag uniqueness. -/
theorem step_nodup (op : Op) (s : Sys)
    (hf : (op.supplyTags ++ s.allTags).Nodup) : (step op s).allTags.Nodup := by
  have hle := step_tagsM_le op s
  have hm : (↑(op.supplyTags ++ s.allTags) : Multiset Nat).Nodup :=
    Multiset.coe_nodup.mpr hf
  have heq : (↑(op.supplyTags ++ s.allTags) : Multiset Nat) =
      ↑op.supplyTags + s.tagsM := by
    rw [← Sys.coe_allTags]
    rfl
  rw [heq] at hm
  have h2 := Multiset.nodup_of_le hle hm
  rw [← Sys.coe_allTags] at h2
  exact Multiset.coe_nodup.mp h2

/-! ### C2 -/

/-- C2: exclusive ownership. For every sequence of `receive`, `transmit`,
`flush` and token-consume operations in which the environment supplies only
fresh, globally unique buffer tags, if no tag appears twice across the
bridge's three queues and the live tokens initially, then the same holds after
running the whole sequence — no buffer is ever duplicated into two queues or
two tokens. Every prefix of a fresh trace is itself a fresh trace, so the
uniqueness invariant holds at every instant along the run. -/
theorem c2_exclusive_ownership (ops : List Op) (s : Sys)
    (hf : freshTrace ops s = true) (h : s.allTags.Nodup) :
    (run ops s).allTags.Nodup := by
  induction ops generalizing s with
  | nil => exact h
  | cons op ops ih =>
    rw [freshTrace, Bool.and_eq_true] at hf
    exact ih (step op s) hf.2 (step_nodup op s (of_decide_eq_true hf.1))

/-- Witness for C2: a concrete five-operation trace (receive pairing driver
packet 1 with pool buffer 2, consuming the Tx token with a successful fill,
transmitting pool buffer 7, flushing one packet, consuming the Rx token) on an
initially empty bridge keeps all tags unique. -/
theorem c2_exclusive_ownership_witness :
    freshTrace [Op.receive [{ id := 1, len := 5 }] [2], Op.consumeTx 0 3 true 0,
        Op.transmit [7], Op.flush 1, Op.consumeRx 0]
      { phy := emptyPhy 5, rxTok := [], txTok := [] } = true ∧
    (Sys.allTags { phy := emptyPhy 5, rxTok := [], txTok := [] }).Nodup ∧
    (run [Op.receive [{ id := 1, len := 5 }] [2], Op.consumeTx 0 3 true 0,
        Op.transmit [7], Op.flush 1, Op.consumeRx 0]
      { phy := emptyPhy 5, rxTok := [], txTok := [] }).allTags.Nodup :=
  ⟨by decide, by decide,
    c2_exclusive_ownership
      [Op.receive [{ id := 1, len := 5 }] [2], Op.consumeTx 0 3 true 0,
        Op.transmit [7], Op.flush 1, Op.consumeRx 0]
      { phy := emptyPhy 5, rxTok := [], txTok := [] } (by decide) (by decide)⟩
